import Mathlib

/-!
Shallow embedding of the valence sentiment-rating utility (`valence.py` and
`prompts.py`): the grouping of dataset entries by score, deterministic prompt
construction in two languages, parsing of a bracketed integer out of free-form
model text with clamping into [1, 7], credential resolution by runtime
selector, and the batch rating loop.

Python's insertion-ordered dictionaries are modelled as association lists with
in-place update, the environment as a map from variable name to optional
value, exceptions as `Except`, and the regular-expression search
`re.search(r"\[(\d+)\]", content)` as a left-to-right scanner over the
character list.
-/

namespace Valence

/-- One record of the sentiments dataset (`SentimentEntry` in `valence.py`):
a ground-truth `sentiment` label, a short `heading`, and the example `text`. -/
structure SentimentEntry where
  sentiment : Int
  heading : String
  text : String
deriving DecidableEq

/-- The heading/text payload that `organize_sentiments_by_score` stores for
each score key. -/
structure Payload where
  heading : String
  text : String
deriving DecidableEq

/-- Python dict assignment `d[k] = v` on an insertion-ordered dictionary,
modelled on an association list: if the key is present its value is replaced
in place (keeping the original position), otherwise the pair is appended at
the end. -/
def dictInsert {α : Type} (k : Int) (v : α) : List (Int × α) → List (Int × α)
  | [] => [(k, v)]
  | (k', v') :: rest =>
    if k' = k then (k, v) :: rest else (k', v') :: dictInsert k v rest

/-- `organize_sentiments_by_score` from `valence.py` (lines 34-54): fold the
entry list in order into an insertion-ordered dictionary keyed by the numeric
score, storing the heading and text of each entry. -/
def organize_sentiments_by_score (entries : List SentimentEntry) :
    List (Int × Payload) :=
  entries.foldl
    (fun organized entry =>
      dictInsert entry.sentiment ⟨entry.heading, entry.text⟩ organized)
    []

/-- Numeric value of one decimal digit character. -/
def digitVal (c : Char) : Nat := c.toNat - '0'.toNat

/-- Python `int` applied to a string of decimal digits. -/
def digitsToNat (ds : List Char) : Nat :=
  ds.foldl (fun n c => n * 10 + digitVal c) 0

/-- `re.search(r"\[(\d+)\]", content)` from `valence.py` line 96: scan the
character list left to right; at the first position where `[` is followed by
a nonempty run of digits and then `]`, return that digit run (the capture
group); return `none` when no position matches.  Backtracking inside `\d+`
cannot help the regex engine here because the character after a maximal digit
run is never itself a digit, so a position matches exactly when the maximal
digit run after its `[` is nonempty and is followed by `]`. -/
def findBracketNum : List Char → Option (List Char)
  | [] => none
  | c :: rest =>
    if c = '[' ∧ rest.takeWhile Char.isDigit ≠ [] ∧
        (rest.dropWhile Char.isDigit).head? = some ']'
    then some (rest.takeWhile Char.isDigit)
    else findBracketNum rest

/-- Lines 96-105 of `rate_sentiment_with_openai_api` in `valence.py`: search
the response content for the first bracketed integer; raise `ValueError`
(modelled as `Except.error`) when there is none, otherwise clamp the parsed
integer into [1, 7] and return it. -/
def rate_sentiment_from_content (content : String) : Except String Nat :=
  match findBracketNum content.toList with
  | none => Except.error ("Could not parse rating from model output: " ++ content)
  | some ds =>
    if digitsToNat ds < 1 then Except.ok 1
    else if digitsToNat ds > 7 then Except.ok 7
    else Except.ok (digitsToNat ds)

/-- Lines 72-81 of `rate_sentiment_with_openai_api` in `valence.py`: resolve
the API key and base URL from the runtime selector and the environment
(modelled as a map from variable name to optional value; `none` means the
variable is unset).  The cloud branch raises a configuration error when
`OPENAI_API_KEY` is unset or empty (Python's `not os.getenv(...)` treats the
empty string as falsy), and passes `OPENAI_BASE_URL` to the client only when
it is set and nonempty (`if base_url else`); any other runtime takes the
local branch, which always succeeds, with `os.getenv` fallbacks: the key is
`OPENAI_API_KEY` if set, else `LOCAL_OPENAI_API_KEY` if set, else
`"sk-local"`, and the base URL is `LOCAL_OPENAI_BASE_URL` if set, else
`"http://localhost:8000/v1"`. -/
def resolve_connection (env : String → Option String) (runtime : String) :
    Except String (String × Option String) :=
  if runtime = "cloud" then
    match env "OPENAI_API_KEY" with
    | none =>
      Except.error "Environment variable OPENAI_API_KEY is not set for cloud runtime."
    | some key =>
      if key = "" then
        Except.error "Environment variable OPENAI_API_KEY is not set for cloud runtime."
      else
        match env "OPENAI_BASE_URL" with
        | none => Except.ok (key, none)
        | some b => if b = "" then Except.ok (key, none) else Except.ok (key, some b)
  else
    Except.ok
      ((env "OPENAI_API_KEY").getD ((env "LOCAL_OPENAI_API_KEY").getD "sk-local"),
       some ((env "LOCAL_OPENAI_BASE_URL").getD "http://localhost:8000/v1"))

/-- `build_prompts` from `prompts.py` (lines 6-37): return the Dutch
(system, user) prompt pair when `lang = "nl"`, the English pair otherwise;
the input text is interpolated verbatim into the user prompt. -/
def build_prompts (text : String) (lang : String := "en") : String × String :=
  if lang = "nl" then
    ("Je bent een expert in de Nederlandse taal die de valentie van Belgisch-Nederlandse teksten analyseert.",
     "Deelnemers reageerden op:\n‘Wat gebeurt er nu of sinds de vorige prompt, en hoe voel je je daarbij?’\nLees de reactie van de deelnemer zorgvuldig: "
       ++ text
       ++ "\nJouw taak is om het sentiment te beoordelen van 1 (zeer negatief) tot 7 (zeer positief). Geef ALLEEN één numerieke beoordeling terug, ingesloten tussen vierkante haken, bijvoorbeeld [X], zonder aanvullende tekst.\nUitvoerformaat: [getal]")
  else
    ("You are a Dutch language expert analyzing the valence of Belgian Dutch texts.",
     "Participants responded to:\n‘What is going on now or since the last prompt, and how do you feel about it?’\nCarefully read the response of the participant: "
       ++ text
       ++ "\nYour task is to rate its sentiment from 1 (very negative) to 7 (very positive).\nReturn ONLY a single numerical rating enclosed in brackets, e.g. [X], with no additional text.\nOutput Format: [number]")

/-- The loop body of `rate_all_texts`: process the remaining entries one at a
time, carrying the `results` dictionary accumulated so far; an exception from
the rater aborts the loop at once, and the accumulated dictionary is
discarded (as in Python, where the raised exception replaces any return
value). -/
def rate_all_texts_aux (rater : String → Except String Nat) :
    List (Int × Payload) → List (Int × Nat) → Except String (List (Int × Nat))
  | [], results => Except.ok results
  | sp :: rest, results =>
    match rater sp.2.text with
    | Except.error err => Except.error err
    | Except.ok predicted =>
      rate_all_texts_aux rater rest (dictInsert sp.1 predicted results)

/-- `rate_all_texts` from `valence.py` (lines 108-123): iterate over the
organized dictionary in its iteration order, call the per-text rater on each
payload's text, and accumulate `results[score] = predicted`.  The rater (one
network round trip per entry in the source) is a parameter returning
`Except`. -/
def rate_all_texts (rater : String → Except String Nat)
    (organized : List (Int × Payload)) : Except String (List (Int × Nat)) :=
  rate_all_texts_aux rater organized []

/-- Specification-side predicate: the character list `l` contains, at offset
`pre.length`, an opening bracket, then the nonempty all-digit run `ds`, then
a closing bracket — exactly the occurrences the pattern `\[(\d+)\]` can
match (the run must be followed by `]` because a digit backtracked off the
end of a run would have to be followed by `]`, and digits are not `]`). -/
def hasBracketNumAt (l pre ds post : List Char) : Prop :=
  l = pre ++ '[' :: (ds ++ ']' :: post) ∧ ds ≠ [] ∧ ∀ c ∈ ds, c.isDigit = true

/-! ### Lemmas about the bracketed-number scanner -/

theorem rsb_not_digit : (']' : Char).isDigit = false := by decide

/-- `takeWhile`/`dropWhile` split a digit run followed by `]` exactly at the
closing bracket. -/
theorem digits_takeWhile (ds post : List Char) (hds : ∀ c ∈ ds, c.isDigit = true) :
    (ds ++ ']' :: post).takeWhile Char.isDigit = ds ∧
    (ds ++ ']' :: post).dropWhile Char.isDigit = ']' :: post := by
  induction ds with
  | nil =>
    simp [List.takeWhile_cons, List.dropWhile_cons, rsb_not_digit]
  | cons c cs ih =>
    have hc : c.isDigit = true := hds c (List.mem_cons_self _ _)
    have ih2 := ih (fun x hx => hds x (List.mem_cons_of_mem _ hx))
    simp [List.takeWhile_cons, List.dropWhile_cons, hc, ih2.1, ih2.2]

/-- One unfolding step of the scanner. -/
theorem findBracketNum_cons (c : Char) (rest : List Char) :
    findBracketNum (c :: rest) =
      if c = '[' ∧ rest.takeWhile Char.isDigit ≠ [] ∧
          (rest.dropWhile Char.isDigit).head? = some ']'
      then some (rest.takeWhile Char.isDigit)
      else findBracketNum rest := rfl

/-- When the regex matches at offset 0, the scanner returns the digit run. -/
theorem findBracketNum_at_zero (ds post : List Char) (hne : ds ≠ [])
    (hds : ∀ c ∈ ds, c.isDigit = true) :
    findBracketNum ('[' :: (ds ++ ']' :: post)) = some ds := by
  have h := digits_takeWhile ds post hds
  rw [findBracketNum_cons, if_pos ⟨rfl, by rw [h.1]; exact hne, by rw [h.2]; rfl⟩, h.1]

/-- When the scanner's step condition holds, a bracketed number occurs at
offset 0, and its digit run is the `takeWhile` run. -/
theorem at_zero_of_cond {c : Char} {rest : List Char}
    (h1 : c = '[') (h2 : rest.takeWhile Char.isDigit ≠ [])
    (h3 : (rest.dropWhile Char.isDigit).head? = some ']') :
    hasBracketNumAt (c :: rest) [] (rest.takeWhile Char.isDigit)
      ((rest.dropWhile Char.isDigit).tail) := by
  subst h1
  refine ⟨?_, h2, fun x hx => List.mem_takeWhile_imp hx⟩
  have hsplit := List.takeWhile_append_dropWhile (p := Char.isDigit) (l := rest)
  cases hdw : rest.dropWhile Char.isDigit with
  | nil => rw [hdw] at h3; simp at h3
  | cons x t =>
    rw [hdw] at h3
    simp only [List.head?_cons, Option.some.injEq] at h3
    subst h3
    rw [hdw] at hsplit
    simp only [List.nil_append, List.cons.injEq, true_and, hdw, List.tail_cons]
    exact hsplit.symm

/-- The scanner's step condition holds exactly when a bracketed number occurs
at offset 0. -/
theorem cond_iff_at_zero (c : Char) (rest : List Char) :
    (c = '[' ∧ rest.takeWhile Char.isDigit ≠ [] ∧
      (rest.dropWhile Char.isDigit).head? = some ']')
    ↔ ∃ ds post, hasBracketNumAt (c :: rest) [] ds post := by
  constructor
  · rintro ⟨h1, h2, h3⟩
    exact ⟨_, _, at_zero_of_cond h1 h2 h3⟩
  · rintro ⟨ds, post, heq, hne, hds⟩
    rw [List.nil_append] at heq
    obtain ⟨rfl, rfl⟩ : c = '[' ∧ rest = ds ++ ']' :: post := by
      injection heq with hh ht
      exact ⟨hh, ht⟩
    have h := digits_takeWhile ds post hds
    exact ⟨rfl, by rw [h.1]; exact hne, by rw [h.2]; rfl⟩

/-- The scanner finds the leftmost bracketed number: if one occurs at offset
`pre.length` and none occurs strictly earlier, the scanner returns its digit
run. -/
theorem findBracketNum_first (pre ds post : List Char)
    (hne : ds ≠ []) (hdig : ∀ c ∈ ds, c.isDigit = true)
    (hmin : ∀ pre' ds' post',
      hasBracketNumAt (pre ++ '[' :: (ds ++ ']' :: post)) pre' ds' post' →
      pre.length ≤ pre'.length) :
    findBracketNum (pre ++ '[' :: (ds ++ ']' :: post)) = some ds := by
  induction pre with
  | nil => exact findBracketNum_at_zero ds post hne hdig
  | cons c pre ih =>
    rw [List.cons_append, findBracketNum_cons, if_neg]
    · apply ih
      intro pre' ds' post' h
      have := hmin (c :: pre') ds' post'
        ⟨by rw [List.cons_append, h.1, List.cons_append], h.2.1, h.2.2⟩
      simpa using this
    · intro hcond
      obtain ⟨ds0, post0, h0⟩ := (cond_iff_at_zero _ _).1 hcond
      have := hmin [] ds0 post0 (by rw [List.cons_append]; exact h0)
      simp at this

/-- The scanner returns `none` exactly when no bracketed number occurs
anywhere in the list. -/
theorem findBracketNum_none_iff (l : List Char) :
    findBracketNum l = none ↔ ∀ pre ds post, ¬ hasBracketNumAt l pre ds post := by
  induction l with
  | nil =>
    constructor
    · rintro _ pre ds post ⟨heq, _, _⟩
      exact absurd heq.symm (by simp)
    · intro _; rfl
  | cons c rest ih =>
    rw [findBracketNum_cons]
    by_cases hcond : c = '[' ∧ rest.takeWhile Char.isDigit ≠ [] ∧
        (rest.dropWhile Char.isDigit).head? = some ']'
    · rw [if_pos hcond]
      obtain ⟨ds0, post0, h0⟩ := (cond_iff_at_zero c rest).1 hcond
      constructor
      · intro h; exact absurd h (by simp)
      · intro hall; exact absurd h0 (hall [] ds0 post0)
    · rw [if_neg hcond, ih]
      constructor
      · intro hall pre ds post h
        cases pre with
        | nil => exact hcond ((cond_iff_at_zero c rest).2 ⟨ds, post, h⟩)
        | cons c0 pre =>
          obtain ⟨heq, hne, hds⟩ := h
          rw [List.cons_append] at heq
          have ht : rest = pre ++ '[' :: (ds ++ ']' :: post) := by
            injection heq
          exact hall pre ds post ⟨ht, hne, hds⟩
      · intro hall pre ds post h
        exact hall (c :: pre) ds post
          ⟨by rw [List.cons_append, h.1], h.2.1, h.2.2⟩

/-- Whenever the scanner returns a digit run, that run is a bracketed number
occurring in the list: nonempty and all digits. -/
theorem findBracketNum_some (l ds : List Char) (h : findBracketNum l = some ds) :
    ∃ pre post, hasBracketNumAt l pre ds post := by
  induction l with
  | nil => exact absurd h (by simp [findBracketNum])
  | cons c rest ih =>
    rw [findBracketNum_cons] at h
    by_cases hcond : c = '[' ∧ rest.takeWhile Char.isDigit ≠ [] ∧
        (rest.dropWhile Char.isDigit).head? = some ']'
    · rw [if_pos hcond] at h
      obtain ⟨rfl⟩ : ds = rest.takeWhile Char.isDigit := by
        injection h with h; exact h.symm
      exact ⟨[], _, at_zero_of_cond hcond.1 hcond.2.1 hcond.2.2⟩
    · rw [if_neg hcond] at h
      obtain ⟨pre, post, hh⟩ := ih h
      exact ⟨c :: pre, post, by rw [List.cons_append, hh.1], hh.2.1, hh.2.2⟩

/-! ### Claims about the rating parser -/

/-- Claim C1: for every response text from which the rater returns normally,
the returned rating is an integer in the closed range [1, 7], obtained by
clamping the parsed bracketed integer: a parsed value below 1 is returned as
1, a parsed value above 7 is returned as 7, and a parsed value already in
[1, 7] is returned unchanged. -/
theorem rating_in_range_and_clamped (content : String) (r : Nat)
    (h : rate_sentiment_from_content content = Except.ok r) :
    1 ≤ r ∧ r ≤ 7 ∧ ∃ ds, findBracketNum content.toList = some ds ∧
      r = min 7 (max 1 (digitsToNat ds)) := by
  unfold rate_sentiment_from_content at h
  cases hf : findBracketNum content.toList with
  | none => rw [hf] at h; exact absurd h (by simp)
  | some ds =>
    rw [hf] at h
    dsimp only at h
    split_ifs at h with h1 h2 <;>
      simp only [Except.ok.injEq] at h <;> subst h <;>
      exact ⟨by omega, by omega, ds, rfl, by omega⟩

/-- Witness for C1 at the response text `"[9]"`: a parsed 9 is clamped down
to 7 (the spec's `"[0]"` and `"[5]"` examples evaluate the same way). -/
theorem rating_in_range_and_clamped_check :
    1 ≤ 7 ∧ 7 ≤ 7 ∧ ∃ ds, findBracketNum ("[9]".toList) = some ds ∧
      7 = min 7 (max 1 (digitsToNat ds)) :=
  rating_in_range_and_clamped "[9]" 7 rfl

/-- Claim C2: the rater raises a parsing error (surfaced to the caller) if
and only if the response text contains no occurrence of one or more digits
enclosed in square brackets; in particular the text `"no rating here"` and
the empty text (the content extracted when the response has no choices)
cause the error. -/
theorem parse_error_iff_no_bracketed_digits :
    (∀ content : String,
      (∃ e, rate_sentiment_from_content content = Except.error e) ↔
        ∀ pre ds post, ¬ hasBracketNumAt content.toList pre ds post) ∧
    (∃ e, rate_sentiment_from_content "no rating here" = Except.error e) ∧
    (∃ e, rate_sentiment_from_content "" = Except.error e) := by
  refine ⟨fun content => ?_, ⟨_, rfl⟩, ⟨_, rfl⟩⟩
  constructor
  · rintro ⟨e, he⟩
    rw [← findBracketNum_none_iff]
    unfold rate_sentiment_from_content at he
    cases hf : findBracketNum content.toList with
    | none => rfl
    | some ds =>
      rw [hf] at he
      dsimp only at he
      split_ifs at he
  · intro hall
    have hf : findBracketNum content.toList = none :=
      (findBracketNum_none_iff _).2 hall
    exact ⟨_, by unfold rate_sentiment_from_content; rw [hf]⟩

/-- Claim C3: for every response text containing at least one bracketed
digit sequence, the rater parses the first (leftmost) such occurrence,
regardless of its position in the text. -/
theorem parser_takes_leftmost_match (content : String) (pre ds post : List Char)
    (hdec : content.toList = pre ++ '[' :: (ds ++ ']' :: post))
    (hne : ds ≠ []) (hdig : ∀ c ∈ ds, c.isDigit = true)
    (hfirst : ∀ pre' ds' post', hasBracketNumAt content.toList pre' ds' post' →
      pre.length ≤ pre'.length) :
    findBracketNum content.toList = some ds ∧
    rate_sentiment_from_content content =
      Except.ok (min 7 (max 1 (digitsToNat ds))) := by
  have h1 : findBracketNum content.toList = some ds := by
    rw [hdec]
    exact findBracketNum_first pre ds post hne hdig (by rw [← hdec]; exact hfirst)
  refine ⟨h1, ?_⟩
  unfold rate_sentiment_from_content
  rw [h1]
  dsimp only
  split_ifs with ha hb <;> congr 1 <;> omega

/-- Witness for C3 at the response text `"[3] maybe or [5]"`: the first
match `3` is used, not `5`. -/
theorem parser_takes_leftmost_match_check :
    findBracketNum ("[3] maybe or [5]".toList) = some ['3'] ∧
    rate_sentiment_from_content "[3] maybe or [5]" = Except.ok 3 := by
  have h := parser_takes_leftmost_match "[3] maybe or [5]" [] ['3']
    (" maybe or [5]".toList) (by decide) (by decide) (by decide)
    (fun pre ds post _ => Nat.zero_le pre.length)
  have hv : min 7 (max 1 (digitsToNat ['3'])) = 3 := by decide
  rw [hv] at h
  exact h

/-- Claim C4: a bracketed negative integer is not recognized by the parser:
`"[-3]"` raises the parsing error rather than being clamped up to 1; every
digit run the scanner returns is a nonempty run of digit characters (no
minus sign), so its parsed value is a natural number and the below-1 clamp
branch is reachable only for a parsed value of 0, as with `"[0]"` or
`"[00]"`. -/
theorem negative_bracketed_not_recognized :
    (∃ e, rate_sentiment_from_content "[-3]" = Except.error e) ∧
    (∀ l ds, findBracketNum l = some ds →
      ds ≠ [] ∧ ∀ c ∈ ds, c.isDigit = true) ∧
    (∀ l ds, findBracketNum l = some ds →
      digitsToNat ds < 1 → digitsToNat ds = 0) ∧
    rate_sentiment_from_content "[0]" = Except.ok 1 ∧
    rate_sentiment_from_content "[00]" = Except.ok 1 := by
  refine ⟨⟨_, rfl⟩, ?_, ?_, rfl, rfl⟩
  · intro l ds h
    obtain ⟨pre, post, hh⟩ := findBracketNum_some l ds h
    exact ⟨hh.2.1, hh.2.2⟩
  · intro l ds _ hlt
    omega

/-! ### Lemmas about the grouper -/

/-- Association-list lookup at a cons cell, phrased with a propositional
if-then-else. -/
theorem lookup_cons_ite {α : Type} (a k : Int) (b : α) (es : List (Int × α)) :
    ((k, b) :: es).lookup a = if a = k then some b else es.lookup a := by
  by_cases h : a = k
  · subst h
    rw [List.lookup_cons_self, if_pos rfl]
  · rw [if_neg h, List.lookup_cons, beq_eq_false_iff_ne.mpr h]

/-- Looking a key up after a dict assignment: the assigned key maps to the
new value, every other key is unaffected. -/
theorem lookup_dictInsert {α : Type} (s k : Int) (v : α) (m : List (Int × α)) :
    (dictInsert k v m).lookup s = if s = k then some v else m.lookup s := by
  induction m with
  | nil =>
    simp [dictInsert, lookup_cons_ite]
  | cons kv rest ih =>
    obtain ⟨k', v'⟩ := kv
    by_cases hk : k' = k
    · subst hk
      rw [show dictInsert k' v ((k', v') :: rest) = (k', v) :: rest from by
          simp [dictInsert],
        lookup_cons_ite, lookup_cons_ite]
      by_cases hs : s = k' <;> simp [hs]
    · rw [show dictInsert k v ((k', v') :: rest) = (k', v') :: dictInsert k v rest
            from by simp [dictInsert, hk],
        lookup_cons_ite, ih, lookup_cons_ite]
      by_cases hs : s = k'
      · by_cases hsk : s = k
        · exact absurd (hs.symm.trans hsk) hk
        · simp [hs, hsk, hk]
      · by_cases hsk : s = k <;> simp [hs, hsk, Ne.symm hk]

/-- Looking a score up in the organized dictionary returns the heading and
text of the last entry in list order carrying that score. -/
theorem lookup_organize (entries : List SentimentEntry) (s : Int) :
    (organize_sentiments_by_score entries).lookup s =
      ((entries.filter (fun q => q.sentiment == s)).getLast?).map
        (fun q => (⟨q.heading, q.text⟩ : Payload)) := by
  unfold organize_sentiments_by_score
  induction entries using List.reverseRecOn with
  | nil => simp [List.lookup]
  | append_singleton rest e ih =>
    rw [List.foldl_append, List.foldl_cons, List.foldl_nil, lookup_dictInsert,
      List.filter_append]
    by_cases he : e.sentiment = s
    · rw [List.filter_cons_of_pos, List.filter_nil, List.getLast?_concat,
        if_pos he.symm, Option.map_some']
      simpa using he
    · rw [List.filter_cons_of_neg, List.filter_nil, List.append_nil,
        if_neg (fun h => he h.symm), ih]
      simpa using he

/-- Claim C5: when two or more entries share the same sentiment score, the
grouper's output at that score holds the heading and text of the last such
entry in list order (last-write-wins overwrite, not an error). -/
theorem grouper_last_write_wins (entries : List SentimentEntry) (s : Int)
    (e : SentimentEntry)
    (_hdup : 2 ≤ (entries.filter (fun q => q.sentiment == s)).length)
    (hlast : (entries.filter (fun q => q.sentiment == s)).getLast? = some e) :
    (organize_sentiments_by_score entries).lookup s =
      some ⟨e.heading, e.text⟩ := by
  rw [lookup_organize, hlast, Option.map_some']

/-- Witness for C5: with two entries of score 3, the organized dictionary
holds the second one's heading and text. -/
theorem grouper_last_write_wins_check :
    (organize_sentiments_by_score
      [⟨3, "first", "ta"⟩, ⟨5, "mid", "tb"⟩, ⟨3, "second", "tc"⟩]).lookup 3 =
      some ⟨"second", "tc"⟩ :=
  grouper_last_write_wins
    [⟨3, "first", "ta"⟩, ⟨5, "mid", "tb"⟩, ⟨3, "second", "tc"⟩] 3
    ⟨3, "second", "tc"⟩ (by decide) (by decide)

/-- A key is in the dictionary after an assignment exactly when it is the
assigned key or was present before. -/
theorem mem_keys_dictInsert {α : Type} (a k : Int) (v : α) (m : List (Int × α)) :
    a ∈ (dictInsert k v m).map Prod.fst ↔ a = k ∨ a ∈ m.map Prod.fst := by
  induction m with
  | nil => simp [dictInsert]
  | cons kv rest ih =>
    obtain ⟨k', v'⟩ := kv
    by_cases hk : k' = k
    · subst hk
      simp [dictInsert]
    · simp [dictInsert, hk, ih]
      tauto

/-- Dict assignment preserves distinctness of the stored keys. -/
theorem nodup_keys_dictInsert {α : Type} (k : Int) (v : α) (m : List (Int × α))
    (h : (m.map Prod.fst).Nodup) : ((dictInsert k v m).map Prod.fst).Nodup := by
  induction m with
  | nil => simp [dictInsert]
  | cons kv rest ih =>
    obtain ⟨k', v'⟩ := kv
    simp only [List.map_cons, List.nodup_cons] at h
    by_cases hk : k' = k
    · subst hk
      simpa [dictInsert] using h
    · simp only [dictInsert, if_neg hk, List.map_cons, List.nodup_cons]
      refine ⟨?_, ih h.2⟩
      rw [mem_keys_dictInsert]
      rintro (rfl | hmem)
      · exact hk rfl
      · exact h.1 hmem

/-- A score is a key of the organized dictionary exactly when some entry of
the input list carries it. -/
theorem mem_keys_organize (entries : List SentimentEntry) (s : Int) :
    s ∈ (organize_sentiments_by_score entries).map Prod.fst ↔
      s ∈ entries.map (fun q => q.sentiment) := by
  unfold organize_sentiments_by_score
  induction entries using List.reverseRecOn with
  | nil => simp
  | append_singleton rest e ih =>
    rw [List.foldl_append, List.foldl_cons, List.foldl_nil,
      mem_keys_dictInsert, List.map_append]
    simp only [ih, List.map_cons, List.map_nil, List.mem_append,
      List.mem_singleton]
    tauto

/-- The organized dictionary's keys are pairwise distinct. -/
theorem nodup_keys_organize (entries : List SentimentEntry) :
    ((organize_sentiments_by_score entries).map Prod.fst).Nodup := by
  unfold organize_sentiments_by_score
  induction entries using List.reverseRecOn with
  | nil => simp
  | append_singleton rest e ih =>
    rw [List.foldl_append, List.foldl_cons, List.foldl_nil]
    exact nodup_keys_dictInsert _ _ _ ih

/-- Claim C6: the key set of the grouper's output equals exactly the set of
distinct sentiment values occurring in the input list, and the output's size
equals the number of distinct sentiment values. -/
theorem grouper_keys_are_distinct_sentiments (entries : List SentimentEntry) :
    (∀ s : Int, s ∈ (organize_sentiments_by_score entries).map Prod.fst ↔
      s ∈ entries.map (fun q => q.sentiment)) ∧
    ((organize_sentiments_by_score entries).map Prod.fst).length =
      (entries.map (fun q => q.sentiment)).toFinset.card := by
  refine ⟨fun s => mem_keys_organize entries s, ?_⟩
  have hset : ((organize_sentiments_by_score entries).map Prod.fst).toFinset =
      (entries.map (fun q => q.sentiment)).toFinset := by
    ext s
    simp only [List.mem_toFinset]
    exact mem_keys_organize entries s
  rw [← hset, List.toFinset_card_of_nodup (nodup_keys_organize entries)]

/-! ### Claims about the prompt builder -/

/-- Claim C7: the prompt builder is a pure, deterministic function: two
calls with identical inputs return identical (system prompt, user prompt)
pairs; in this embedding of the stateless source function, equality of the
inputs forces equality of the outputs. -/
theorem build_prompts_pure (text1 text2 lang1 lang2 : String)
    (ht : text1 = text2) (hl : lang1 = lang2) :
    build_prompts text1 lang1 = build_prompts text2 lang2 := by
  subst ht
  subst hl
  rfl

/-- Witness for C7 at a concrete text and language tag. -/
theorem build_prompts_pure_check :
    build_prompts "Things are fine." "en" = build_prompts "Things are fine." "en" :=
  build_prompts_pure "Things are fine." "Things are fine." "en" "en" rfl rfl

/-- Claim C8: for every text (including the empty string) and every language
tag, the prompt builder produces one of exactly two fixed template pairs:
the Dutch pair when the tag equals "nl" and the English pair for every other
tag (silent fallback), the two pairs being distinct; and the input text
appears verbatim as a substring of the user prompt. -/
theorem build_prompts_two_templates (text lang : String) :
    build_prompts text lang =
      build_prompts text (if lang = "nl" then "nl" else "en") ∧
    build_prompts text "nl" ≠ build_prompts text "en" ∧
    ∃ a b, (build_prompts text lang).2 = a ++ text ++ b := by
  refine ⟨?_, ?_, ?_⟩
  · by_cases h : lang = "nl"
    · rw [if_pos h, h]
    · rw [if_neg h]
      unfold build_prompts
      rw [if_neg h, if_neg (by decide : ¬("en" = "nl"))]
  · intro hcontra
    unfold build_prompts at hcontra
    rw [if_pos rfl, if_neg (by decide : ¬("en" = "nl")), Prod.mk.injEq] at hcontra
    exact absurd hcontra.1 (by decide)
  · by_cases h : lang = "nl"
    · unfold build_prompts
      rw [if_pos h]
      exact ⟨_, _, rfl⟩
    · unfold build_prompts
      rw [if_neg h]
      exact ⟨_, _, rfl⟩

/-! ### Claims about the batch rater and credential resolution -/

/-- A dict assignment with a key not yet present appends the pair at the
end. -/
theorem dictInsert_fresh {α : Type} (k : Int) (v : α) (m : List (Int × α))
    (h : k ∉ m.map Prod.fst) : dictInsert k v m = m ++ [(k, v)] := by
  induction m with
  | nil => rfl
  | cons kv rest ih =>
    obtain ⟨k', v'⟩ := kv
    simp only [List.map_cons, List.mem_cons, not_or] at h
    rw [show dictInsert k v ((k', v') :: rest) = (k', v') :: dictInsert k v rest
        from by simp [dictInsert, Ne.symm h.1]]
    rw [List.cons_append, ih h.2]

/-- When the rater succeeds on every entry, the loop walks the entries in
order and appends one result pair per entry, in the same order. -/
theorem rate_all_texts_aux_all_ok (good : String → Except String Nat)
    (f : String → Nat) (hgood : ∀ t, good t = Except.ok (f t)) :
    ∀ (organized : List (Int × Payload)) (acc : List (Int × Nat)),
      (organized.map Prod.fst).Nodup →
      (∀ k ∈ organized.map Prod.fst, k ∉ acc.map Prod.fst) →
      rate_all_texts_aux good organized acc =
        Except.ok (acc ++ organized.map (fun q => (q.1, f q.2.text))) := by
  intro organized
  induction organized with
  | nil =>
    intro acc _ _
    simp [rate_all_texts_aux]
  | cons q rest ih =>
    intro acc hnd hdisj
    simp only [List.map_cons, List.nodup_cons] at hnd
    rw [show rate_all_texts_aux good (q :: rest) acc =
        rate_all_texts_aux good rest (dictInsert q.1 (f q.2.text) acc) from by
      rw [rate_all_texts_aux, hgood q.2.text]]
    rw [dictInsert_fresh q.1 _ acc (hdisj q.1 (by simp))]
    rw [ih (acc ++ [(q.1, f q.2.text)]) hnd.2 ?_]
    · simp
    · intro k hk
      simp only [List.map_append, List.mem_append, List.map_cons,
        List.map_nil, List.mem_singleton, not_or]
      exact ⟨hdisj k (by simp [hk]), fun hkq => hnd.1 (hkq ▸ hk)⟩

/-- When every entry before the failing one succeeds and the rater fails on
the failing entry's text, the loop returns that error whatever comes
after. -/
theorem rate_all_texts_aux_abort (rater : String → Except String Nat)
    (s : Int) (p : Payload) (e : String) (hfail : rater p.text = Except.error e) :
    ∀ (pre : List (Int × Payload)) (post : List (Int × Payload))
      (acc : List (Int × Nat)),
      (∀ q ∈ pre, ∃ n, rater q.2.text = Except.ok n) →
      rate_all_texts_aux rater (pre ++ (s, p) :: post) acc = Except.error e := by
  intro pre
  induction pre with
  | nil =>
    intro post acc _
    rw [List.nil_append, rate_all_texts_aux, hfail]
  | cons q rest ih =>
    intro post acc hpre
    obtain ⟨n, hn⟩ := hpre q (List.mem_cons_self _ _)
    rw [List.cons_append, rate_all_texts_aux, hn]
    exact ih post _ (fun q2 hq2 => hpre q2 (List.mem_cons_of_mem _ hq2))

/-- Claim C9: the batch rater processes the organized map's entries one at a
time in mapping iteration order, invoking the per-text rater once per entry
(when every call succeeds the result holds one pair per entry, in entry
order); if the rater fails on any entry, the error propagates immediately,
entries after the failing one are never rated (the run equals the run with
them removed), and no partial results mapping is returned to the caller. -/
theorem batch_rater_order_and_abort (rater good : String → Except String Nat)
    (f : String → Nat) (organized pre post : List (Int × Payload))
    (s : Int) (p : Payload) (e : String)
    (hgood : ∀ t, good t = Except.ok (f t))
    (hnd : (organized.map Prod.fst).Nodup)
    (hpre : ∀ q ∈ pre, ∃ n, rater q.2.text = Except.ok n)
    (hfail : rater p.text = Except.error e) :
    rate_all_texts good organized =
      Except.ok (organized.map (fun q => (q.1, f q.2.text))) ∧
    rate_all_texts rater (pre ++ (s, p) :: post) = Except.error e ∧
    rate_all_texts rater (pre ++ (s, p) :: post) =
      rate_all_texts rater (pre ++ [(s, p)]) := by
  refine ⟨?_, ?_, ?_⟩
  · rw [rate_all_texts, rate_all_texts_aux_all_ok good f hgood organized [] hnd
      (by simp), List.nil_append]
  · exact rate_all_texts_aux_abort rater s p e hfail pre post [] hpre
  · rw [rate_all_texts, rate_all_texts,
      rate_all_texts_aux_abort rater s p e hfail pre post [] hpre,
      rate_all_texts_aux_abort rater s p e hfail pre [] [] hpre]

/-- Witness for C9 with a two-entry success run and a failing run: the rater
that rejects the text "bad" aborts the batch at the second entry with its
error, and the third entry is never reached. -/
theorem batch_rater_order_and_abort_check :
    rate_all_texts (fun _ => Except.ok 4)
        [(1, ⟨"h1", "ta"⟩), (2, ⟨"h2", "tb"⟩)] =
      Except.ok [(1, 4), (2, 4)] ∧
    rate_all_texts
        (fun t => if t = "bad" then Except.error "boom" else Except.ok 2)
        [(1, ⟨"h1", "ta"⟩), (2, ⟨"h2", "bad"⟩), (3, ⟨"h3", "tc"⟩)] =
      Except.error "boom" ∧
    rate_all_texts
        (fun t => if t = "bad" then Except.error "boom" else Except.ok 2)
        [(1, ⟨"h1", "ta"⟩), (2, ⟨"h2", "bad"⟩), (3, ⟨"h3", "tc"⟩)] =
      rate_all_texts
        (fun t => if t = "bad" then Except.error "boom" else Except.ok 2)
        [(1, ⟨"h1", "ta"⟩), (2, ⟨"h2", "bad"⟩)] := by
  have h := batch_rater_order_and_abort
    (fun t => if t = "bad" then Except.error "boom" else Except.ok 2)
    (fun _ => Except.ok 4) (fun _ => 4)
    [(1, ⟨"h1", "ta"⟩), (2, ⟨"h2", "tb"⟩)]
    [(1, ⟨"h1", "ta"⟩)] [(3, ⟨"h3", "tc"⟩)] 2 ⟨"h2", "bad"⟩ "boom"
    (fun t => rfl) (by decide)
    (by
      intro q hq
      simp only [List.mem_singleton] at hq
      exact ⟨2, by subst hq; rfl⟩)
    rfl
  exact h

/-- Claim C10: in local runtime the credential resolution gives the cloud
environment variable priority over the local one: the API key used is
`OPENAI_API_KEY` when it is set, otherwise `LOCAL_OPENAI_API_KEY` when it is
set, otherwise the fixed permissive key `"sk-local"`; the base address is
`LOCAL_OPENAI_BASE_URL` when set, otherwise `"http://localhost:8000/v1"`;
local runtime never raises the missing-credential configuration error. -/
theorem local_runtime_credential_resolution (env : String → Option String) :
    ∃ key base,
      resolve_connection env "local" = Except.ok (key, some base) ∧
      (∀ v, env "OPENAI_API_KEY" = some v → key = v) ∧
      (env "OPENAI_API_KEY" = none →
        ∀ v, env "LOCAL_OPENAI_API_KEY" = some v → key = v) ∧
      (env "OPENAI_API_KEY" = none → env "LOCAL_OPENAI_API_KEY" = none →
        key = "sk-local") ∧
      (∀ v, env "LOCAL_OPENAI_BASE_URL" = some v → base = v) ∧
      (env "LOCAL_OPENAI_BASE_URL" = none →
        base = "http://localhost:8000/v1") := by
  refine ⟨(env "OPENAI_API_KEY").getD ((env "LOCAL_OPENAI_API_KEY").getD "sk-local"),
    (env "LOCAL_OPENAI_BASE_URL").getD "http://localhost:8000/v1",
    ?_, ?_, ?_, ?_, ?_, ?_⟩
  · unfold resolve_connection
    rw [if_neg (by decide : ¬("local" = "cloud"))]
  · intro v hv
    rw [hv]
    rfl
  · intro h0 v hv
    rw [h0, hv]
    rfl
  · intro h0 h1
    rw [h0, h1]
    rfl
  · intro v hv
    rw [hv]
    rfl
  · intro h
    rw [h]
    rfl

end Valence
